import Mathlib

/-!
Verification of the balance-reconciliation logic of the MEXC balance test
script (scripts/test-mexc-balance.py).

The script is embedded shallowly: Python floats become rationals, raw JSON
scalar values become an inductive type carrying Python truthiness, raised
exceptions become `Except Unit`, and each component (spot normalizer, swap
extractor, position aggregator, trade aggregator, funding probe, summary)
becomes a Lean function translated clause by clause from the source.
-/

namespace MexcBalance

/-- A raw scalar field value as it appears in an exchange balance or
position response: Python None, a number, a non-empty string (numeric or
not), or the empty string. -/
inductive RawVal where
  | null
  | num (q : ℚ)
  | str (parsed : Option ℚ)
  | emptyStr
deriving DecidableEq, Repr

/-- Python truthiness of a raw value: None, 0 and the empty string are
falsy; every non-empty string is truthy. -/
def RawVal.truthy : RawVal → Bool
  | .null => false
  | .num q => decide (q ≠ 0)
  | .str _ => true
  | .emptyStr => false

/-- Python float(v) applied to a raw value: numbers and numeric strings
convert, None, the empty string and non-numeric strings raise. -/
def pyFloat : RawVal → Except Unit ℚ
  | .null => .error ()
  | .num q => .ok q
  | .str (some q) => .ok q
  | .str none => .error ()
  | .emptyStr => .error ()

/-- The coercion idiom float(d.get(k, 0) or 0) used throughout the script:
a missing field, None, 0 or the empty string give 0; a numeric value or a
numeric string give its value; a non-numeric non-empty string raises. -/
def coerceNum : Option RawVal → Except Unit ℚ
  | none => .ok 0
  | some .null => .ok 0
  | some .emptyStr => .ok 0
  | some (.num q) => .ok q
  | some (.str (some q)) => .ok q
  | some (.str none) => .error ()

/-- One value of the raw balance mapping: either a per-currency dict with
optional total, free and used fields, or a non-dict metadata value. -/
inductive RawEntry where
  | dict (total free used : Option RawVal)
  | nondict
deriving DecidableEq, Repr

/-- A raw balance response: an ordered mapping from keys to entries. -/
abbrev RawBalance := List (String × RawEntry)

/-- Keys of the ccxt balance structure that are skipped by the spot loop
because they are not currency identifiers. -/
def reservedKeys : List String :=
  ["info", "free", "used", "total", "debt", "timestamp", "datetime"]

/-- Currencies counted directly into the settlement-currency subtotal. -/
def settlementCurrencies : List String := ["USDT", "USDC", "USD"]

/-- A normalized asset balance as built by the spot loop. -/
structure AssetBalance where
  currency : String
  total : ℚ
  free : ℚ
  used : ℚ
deriving DecidableEq, Repr

/-- The spot normalizer output: the retained balances in insertion order
and the running settlement-currency subtotal. -/
structure SpotSnapshot where
  balances : List AssetBalance
  settlementEquivalent : ℚ
deriving DecidableEq, Repr

/-- The spot balance loop of test_spot_balance: skip reserved keys and
non-dict values, coerce total, free and used, keep an asset only when its
total is positive, and add settlement-currency totals into the subtotal.
A coercion failure anywhere raises out of the whole loop. -/
def normalizeSpot : RawBalance → Except Unit SpotSnapshot
  | [] => .ok ⟨[], 0⟩
  | (c, e) :: rest =>
    if c ∈ reservedKeys then normalizeSpot rest
    else
      match e with
      | .nondict => normalizeSpot rest
      | .dict t f u =>
        match coerceNum t, coerceNum f, coerceNum u with
        | .ok tq, .ok fq, .ok uq =>
          match normalizeSpot rest with
          | .ok tail =>
            if 0 < tq then
              .ok ⟨⟨c, tq, fq, uq⟩ :: tail.balances,
                   (if c ∈ settlementCurrencies then tq else 0)
                     + tail.settlementEquivalent⟩
            else .ok tail
          | .error e => .error e
        | _, _, _ => .error ()

/-- Stable insertion of an asset into a list already sorted descending by
total: the inserted asset precedes every strictly smaller total and every
asset with an equal total that came later in the input. -/
def insertByTotal (a : AssetBalance) : List AssetBalance → List AssetBalance
  | [] => [a]
  | b :: bs => if b.total ≤ a.total then a :: b :: bs else b :: insertByTotal a bs

/-- The display ordering sorted(assets, key=total, reverse=True): a stable
sort descending by total, here as stable insertion sort. -/
def sortByTotalDesc : List AssetBalance → List AssetBalance
  | [] => []
  | a :: rest => insertByTotal a (sortByTotalDesc rest)

/-- Boolean check that a list is sorted descending by total. -/
def isSortedDescByTotal : List AssetBalance → Bool
  | [] => true
  | [_] => true
  | a :: b :: rest => decide (b.total ≤ a.total) && isSortedDescByTotal (b :: rest)

/-- Lexicographic comparison of character lists by code point, the
ordering of currency identifiers. -/
def charListLE : List Char → List Char → Bool
  | [], _ => true
  | _ :: _, [] => false
  | a :: as, b :: bs =>
    if a.val < b.val then true
    else if b.val < a.val then false
    else charListLE as bs

/-- Lexicographic comparison of currency identifiers. -/
def strLE (a b : String) : Bool := charListLE a.data b.data

/-- Boolean check of the ordering the specification asks for: descending
by total with ties broken by currency identifier ascending. -/
def isSpecOrdered : List AssetBalance → Bool
  | [] => true
  | [_] => true
  | a :: b :: rest =>
    (decide (b.total < a.total) ||
      (decide (a.total = b.total) && strLE a.currency b.currency))
      && isSpecOrdered (b :: rest)

/-- balance.get(c, \x7b\x7d): the entry stored under key c, or an empty
per-currency dict when the key is absent. -/
def lookupEntry (raw : RawBalance) (c : String) : RawEntry :=
  match raw.find? (fun p => p.1 == c) with
  | some p => p.2
  | none => .dict none none none

/-- float(entry.get(f, 0) or 0) for one field of a per-currency entry; a
non-dict entry raises, as attribute access on it would in the script. -/
def entryField (fld : RawEntry → Option RawVal) : RawEntry → Except Unit ℚ
  | .dict t f u => coerceNum (fld (.dict t f u))
  | .nondict => .error ()

/-- Selector for the total field of a dict entry. -/
def RawEntry.totalField : RawEntry → Option RawVal
  | .dict t _ _ => t
  | .nondict => none

/-- Selector for the free field of a dict entry. -/
def RawEntry.freeField : RawEntry → Option RawVal
  | .dict _ f _ => f
  | .nondict => none

/-- Selector for the used field of a dict entry. -/
def RawEntry.usedField : RawEntry → Option RawVal
  | .dict _ _ u => u
  | .nondict => none

/-- The coerced total of the entry at a currency key. -/
def entryTotal (raw : RawBalance) (c : String) : Except Unit ℚ :=
  entryField RawEntry.totalField (lookupEntry raw c)

/-- Result of test_spot_balance as consumed by main: the settlement
subtotal and the retained asset list, both zeroed on any error. -/
structure SpotResult where
  usdt_equiv : ℚ
  assets : List AssetBalance
deriving DecidableEq, Repr

/-- test_spot_balance: fetch the spot balance and normalize it; any
exception from the fetch or the loop is caught and yields the zero
result. -/
def runSpot (fetch : Except Unit RawBalance) : SpotResult :=
  match fetch with
  | .error _ => ⟨0, []⟩
  | .ok raw =>
    match normalizeSpot raw with
    | .error _ => ⟨0, []⟩
    | .ok snap => ⟨snap.settlementEquivalent, snap.balances⟩

/-- Result of test_swap_balance as consumed by main. -/
structure SwapResult where
  total : ℚ
deriving DecidableEq, Repr

/-- The body of test_swap_balance: read USDT total, free and used, then
USDC and USD totals, and sum the three totals; any coercion failure
raises. -/
def swapTotals (raw : RawBalance) : Except Unit ℚ :=
  match entryTotal raw "USDT",
        entryField RawEntry.freeField (lookupEntry raw "USDT"),
        entryField RawEntry.usedField (lookupEntry raw "USDT") with
  | .ok ut, .ok _, .ok _ =>
    match entryTotal raw "USDC", entryTotal raw "USD" with
    | .ok ct, .ok dt => .ok (ut + ct + dt)
    | _, _ => .error ()
  | _, _, _ => .error ()

/-- test_swap_balance: fetch the swap balance and extract the stablecoin
equity; any exception is caught and yields total 0. -/
def runSwap (fetch : Except Unit RawBalance) : SwapResult :=
  match fetch with
  | .error _ => ⟨0⟩
  | .ok raw =>
    match swapTotals raw with
    | .error _ => ⟨0⟩
    | .ok t => ⟨t⟩

/-- A raw open-position record with the fields the script reads. -/
structure RawPos where
  contracts : Option RawVal
  entryPrice : Option RawVal
  markPrice : Option RawVal
  unrealizedPnl : Option RawVal
  notional : Option RawVal
deriving DecidableEq, Repr

/-- The comprehension predicate p.get(contracts, 0) and
float(p[contracts]) > 0: falsy or missing contracts are rejected without
conversion, truthy contracts are converted (raising when non-numeric) and
compared to 0. -/
def keepPos (p : RawPos) : Except Unit Bool :=
  match p.contracts with
  | none => .ok false
  | some v =>
    if v.truthy then
      match pyFloat v with
      | .ok q => .ok (decide (0 < q))
      | .error e => .error e
    else .ok false

/-- The filtering comprehension over raw positions; a conversion failure
raises out of the whole comprehension. -/
def filterPositions : List RawPos → Except Unit (List RawPos)
  | [] => .ok []
  | p :: ps =>
    match keepPos p with
    | .error e => .error e
    | .ok k =>
      match filterPositions ps with
      | .error e => .error e
      | .ok rest => .ok (if k then p :: rest else rest)

/-- The accumulation loop over the retained positions: coerce contracts,
entry, mark, pnl and notional, summing signed pnl and absolute notional. -/
def aggPositions : List RawPos → Except Unit (ℚ × ℚ)
  | [] => .ok (0, 0)
  | p :: rest =>
    match coerceNum p.contracts, coerceNum p.entryPrice,
          coerceNum p.markPrice with
    | .ok _, .ok _, .ok _ =>
      match coerceNum p.unrealizedPnl, coerceNum p.notional with
      | .ok pnl, .ok ntl =>
        match aggPositions rest with
        | .ok (tp, tn) => .ok (pnl + tp, |ntl| + tn)
        | .error e => .error e
      | _, _ => .error ()
    | _, _, _ => .error ()

/-- Result of test_positions as consumed by main. -/
structure PosResult where
  positions : List RawPos
  unrealized_pnl : ℚ
  notional : ℚ
deriving DecidableEq, Repr

/-- test_positions: fetch, filter to open positions and accumulate; any
exception is caught and yields the zero result. -/
def runPositions (fetch : Except Unit (List RawPos)) : PosResult :=
  match fetch with
  | .error _ => ⟨[], 0, 0⟩
  | .ok raw =>
    match filterPositions raw with
    | .error _ => ⟨[], 0, 0⟩
    | .ok kept =>
      match aggPositions kept with
      | .error _ => ⟨[], 0, 0⟩
      | .ok (pnl, ntl) => ⟨kept, pnl, ntl⟩

/-- The account types test_funding_balance probes, in order. -/
def fundingTypes : List String := ["funding", "earn", "savings"]

/-- The probe loop of test_funding_balance: for each type in order, fetch
the balance and read the USDT total inside a try block; a fetch or
coercion failure falls through to the next type, a positive total is
returned at once, and a non-positive total also falls through. -/
def probeFunding (fetch : String → Except Unit RawBalance) :
    List String → ℚ
  | [] => 0
  | t :: rest =>
    match fetch t with
    | .error _ => probeFunding fetch rest
    | .ok raw =>
      match entryTotal raw "USDT" with
      | .error _ => probeFunding fetch rest
      | .ok q => if 0 < q then q else probeFunding fetch rest

/-- test_funding_balance over the fixed type list. -/
def runFunding (fetch : String → Except Unit RawBalance) : ℚ :=
  probeFunding fetch fundingTypes

/-- A raw fill record with the fields the trade sums read: cost and the
cost inside the fee dict (a missing fee dict reads like a missing cost). -/
structure Fill where
  cost : Option RawVal
  feeCost : Option RawVal
deriving DecidableEq, Repr

/-- The per-symbol fetch loop of test_recent_trades: fills of symbols whose
fetch succeeds are appended in order, a failing symbol is skipped. -/
def gatherTrades (fetch : String → Except Unit (List Fill)) :
    List String → List Fill
  | [] => []
  | s :: rest =>
    match fetch s with
    | .error _ => gatherTrades fetch rest
    | .ok ts => ts ++ gatherTrades fetch rest

/-- sum(float(t.get(cost, 0) or 0) for t in trades). -/
def sumCosts : List Fill → Except Unit ℚ
  | [] => .ok 0
  | t :: ts =>
    match coerceNum t.cost, sumCosts ts with
    | .ok c, .ok s => .ok (c + s)
    | _, _ => .error ()

/-- sum(float(t.get(fee, \x7b\x7d).get(cost, 0) or 0) for t in trades). -/
def sumFees : List Fill → Except Unit ℚ
  | [] => .ok 0
  | t :: ts =>
    match coerceNum t.feeCost, sumFees ts with
    | .ok c, .ok s => .ok (c + s)
    | _, _ => .error ()

/-- Result of test_recent_trades as printed and returned. -/
structure TradesResult where
  fillCount : ℕ
  volume : ℚ
  fees : ℚ
deriving DecidableEq, Repr

/-- test_recent_trades over a given symbol list: gather fills best-effort
per symbol, then sum volume and fees over everything gathered. -/
def runTrades (fetch : String → Except Unit (List Fill))
    (symbols : List String) : Except Unit TradesResult :=
  match sumCosts (gatherTrades fetch symbols),
        sumFees (gatherTrades fetch symbols) with
  | .ok v, .ok f => .ok ⟨(gatherTrades fetch symbols).length, v, f⟩
  | _, _ => .error ()

/-- The unified-margin check of main:
abs(spot_value - swap_value) < 1.0 and spot_value > 0. -/
def poolsShared (spot swap : ℚ) : Bool :=
  decide (|spot - swap| < 1) && decide (0 < spot)

/-- The total main reports: the swap value alone when the pools look
shared, the sum of spot, swap and funding otherwise. -/
def summaryTotal (spot swap funding : ℚ) : ℚ :=
  if poolsShared spot swap then swap else spot + swap + funding

/-- The summary block of main: the four reported figures, the verdict and
the reported total. -/
structure Summary where
  spotValue : ℚ
  swapValue : ℚ
  fundingValue : ℚ
  unrealizedPnl : ℚ
  shared : Bool
  totalEquity : ℚ
deriving DecidableEq, Repr

/-- Build the summary from the four component figures as main does. -/
def mkSummary (spot swap funding pnl : ℚ) : Summary :=
  ⟨spot, swap, funding, pnl, poolsShared spot swap,
    summaryTotal spot swap funding⟩

/-- The whole run of main over the fetch outcomes: every component absorbs
its own failures, so a summary is always produced. -/
def fullRun (spotFetch swapFetch : Except Unit RawBalance)
    (posFetch : Except Unit (List RawPos))
    (fundFetch : String → Except Unit RawBalance) : Summary :=
  mkSummary (runSpot spotFetch).usdt_equiv (runSwap swapFetch).total
    (runFunding fundFetch) (runPositions posFetch).unrealized_pnl

/-- The retention test of the position comprehension as a plain boolean:
true exactly when the comprehension keeps the record and its conversion
does not raise. -/
def keepPosB (p : RawPos) : Bool :=
  match keepPos p with
  | .ok k => k
  | .error _ => false

/-- The numeric value a field contributes after coercion, 0 when the
coercion raises; used only to state sums over already-validated lists. -/
def coerced0 (v : Option RawVal) : ℚ :=
  match coerceNum v with
  | .ok q => q
  | .error _ => 0

/-- The USDT total one funding-probe fetch exposes: none when the fetch or
the coercion raises, the coerced total otherwise. -/
def usdtView (fetch : String → Except Unit RawBalance) (t : String) :
    Option ℚ :=
  match fetch t with
  | .error _ => none
  | .ok raw =>
    match entryTotal raw "USDT" with
    | .error _ => none
    | .ok q => some q

/-- The fills one symbol contributes to the gather loop: its fetched fills
on success, nothing on a fetch failure. -/
def fetchedFills (fetch : String → Except Unit (List Fill)) (t : String) :
    List Fill :=
  match fetch t with
  | .error _ => []
  | .ok ts => ts

/-! ## Helper lemmas -/

theorem insertByTotal_perm (a : AssetBalance) (l : List AssetBalance) :
    (insertByTotal a l).Perm (a :: l) := by
  induction l with
  | nil => simp [insertByTotal]
  | cons b bs ih =>
    by_cases h : b.total ≤ a.total
    · simp [insertByTotal, h]
    · simp only [insertByTotal, if_neg h]
      exact (ih.cons b).trans (List.Perm.swap a b bs)

theorem sortByTotalDesc_perm (l : List AssetBalance) :
    (sortByTotalDesc l).Perm l := by
  induction l with
  | nil => simp [sortByTotalDesc]
  | cons a rest ih =>
    exact (insertByTotal_perm a (sortByTotalDesc rest)).trans (ih.cons a)

theorem isSortedDescByTotal_insert (a : AssetBalance) (l : List AssetBalance)
    (h : isSortedDescByTotal l = true) :
    isSortedDescByTotal (insertByTotal a l) = true := by
  induction l with
  | nil => simp [insertByTotal, isSortedDescByTotal]
  | cons b bs ih =>
    by_cases hba : b.total ≤ a.total
    · cases bs with
      | nil => simp [insertByTotal, hba, isSortedDescByTotal]
      | cons c cs =>
        simp only [insertByTotal, if_pos hba, isSortedDescByTotal,
          Bool.and_eq_true, decide_eq_true_eq] at h ⊢
        exact ⟨hba, h⟩
    · have hab : a.total ≤ b.total := le_of_lt (lt_of_not_le hba)
      cases bs with
      | nil => simp [insertByTotal, hba, isSortedDescByTotal, hab]
      | cons c cs =>
        simp only [isSortedDescByTotal, Bool.and_eq_true,
          decide_eq_true_eq] at h
        have ih2 := ih h.2
        by_cases hca : c.total ≤ a.total
        · simp only [insertByTotal, if_neg hba, if_pos hca] at ih2 ⊢
          simp only [isSortedDescByTotal, Bool.and_eq_true,
            decide_eq_true_eq] at ih2 ⊢
          exact ⟨hab, ih2⟩
        · simp only [insertByTotal, if_neg hba, if_neg hca] at ih2 ⊢
          simp only [isSortedDescByTotal, Bool.and_eq_true,
            decide_eq_true_eq] at ih2 ⊢
          exact ⟨h.1, ih2⟩

theorem sortByTotalDesc_sorted (l : List AssetBalance) :
    isSortedDescByTotal (sortByTotalDesc l) = true := by
  induction l with
  | nil => simp [sortByTotalDesc, isSortedDescByTotal]
  | cons a rest ih => exact isSortedDescByTotal_insert a _ ih

theorem normalizeSpot_error_of_tail (c : String) (e : RawEntry)
    (rest : RawBalance) (h : normalizeSpot rest = .error ()) :
    normalizeSpot ((c, e) :: rest) = .error () := by
  by_cases hr : c ∈ reservedKeys
  · simpa [normalizeSpot, hr] using h
  · cases e with
    | nondict => simpa [normalizeSpot, hr] using h
    | dict t f u =>
      cases ht : coerceNum t <;> cases hf : coerceNum f <;>
        cases hu : coerceNum u <;> simp [normalizeSpot, hr, ht, hf, hu, h]

theorem normalizeSpot_error_of_bad (raw : RawBalance) :
    ∀ c t f u, (c, RawEntry.dict t f u) ∈ raw →
      c ∉ reservedKeys →
      (t = some (.str none) ∨ f = some (.str none) ∨ u = some (.str none)) →
      normalizeSpot raw = .error () := by
  induction raw with
  | nil => intro c t f u hmem; simp at hmem
  | cons hd rest ih =>
    intro c t f u hmem hres hbad
    rcases List.mem_cons.mp hmem with heq | hmem2
    · subst heq
      rcases hbad with hb | hb | hb
      · subst hb
        cases hf : coerceNum f <;> cases hu : coerceNum u <;>
          simp [normalizeSpot, hres, coerceNum, hf, hu]
      · subst hb
        cases ht : coerceNum t <;> cases hu : coerceNum u <;>
          simp [normalizeSpot, hres, coerceNum, ht, hu]
      · subst hb
        cases ht : coerceNum t <;> cases hf : coerceNum f <;>
          simp [normalizeSpot, hres, coerceNum, ht, hf]
    · exact normalizeSpot_error_of_tail hd.1 hd.2 rest
        (ih c t f u hmem2 hres hbad)

theorem normalizeSpot_pos (raw : RawBalance) :
    ∀ snap, normalizeSpot raw = .ok snap →
      ∀ a ∈ snap.balances, 0 < a.total := by
  induction raw with
  | nil =>
    intro snap h a ha
    simp only [normalizeSpot, Except.ok.injEq] at h
    subst h; simp at ha
  | cons hd rest ih =>
    intro snap h a ha
    obtain ⟨c, e⟩ := hd
    by_cases hr : c ∈ reservedKeys
    · simp only [normalizeSpot, if_pos hr] at h
      exact ih snap h a ha
    · cases e with
      | nondict =>
        simp only [normalizeSpot, if_neg hr] at h
        exact ih snap h a ha
      | dict t f u =>
        simp only [normalizeSpot, if_neg hr] at h
        cases ht : coerceNum t with
        | error e1 => rw [ht] at h; simp at h
        | ok tq =>
        cases hf : coerceNum f with
        | error e2 => rw [ht, hf] at h; simp at h
        | ok fq =>
        cases hu : coerceNum u with
        | error e3 => rw [ht, hf, hu] at h; simp at h
        | ok uq =>
        rw [ht, hf, hu] at h
        cases htail : normalizeSpot rest with
        | error e4 => rw [htail] at h; simp at h
        | ok tail =>
        rw [htail] at h
        dsimp only at h
        by_cases hpos : 0 < tq
        · rw [if_pos hpos] at h
          simp only [Except.ok.injEq] at h
          subst h
          rcases List.mem_cons.mp ha with rfl | ha2
          · exact hpos
          · exact ih tail htail a ha2
        · rw [if_neg hpos] at h
          simp only [Except.ok.injEq] at h
          subst h
          exact ih _ htail a ha

theorem normalizeSpot_mem (raw : RawBalance) :
    ∀ snap, normalizeSpot raw = .ok snap →
      ∀ c t f u tq, (c, RawEntry.dict t f u) ∈ raw → c ∉ reservedKeys →
        coerceNum t = .ok tq → 0 < tq →
        ∃ a ∈ snap.balances, a.currency = c ∧ a.total = tq := by
  induction raw with
  | nil => intro snap h c t f u tq hmem; simp at hmem
  | cons hd rest ih =>
    intro snap h c t f u tq hmem hres hct hpos
    rcases List.mem_cons.mp hmem with heq | hmem2
    · subst heq
      simp only [normalizeSpot, if_neg hres] at h
      rw [hct] at h
      cases hf : coerceNum f with
      | error e2 => rw [hf] at h; simp at h
      | ok fq =>
      cases hu : coerceNum u with
      | error e3 => rw [hf, hu] at h; simp at h
      | ok uq =>
      rw [hf, hu] at h
      cases htail : normalizeSpot rest with
      | error e4 => rw [htail] at h; simp at h
      | ok tail =>
      rw [htail] at h
      dsimp only at h
      rw [if_pos hpos] at h
      simp only [Except.ok.injEq] at h
      subst h
      exact ⟨⟨c, tq, fq, uq⟩, List.mem_cons_self _ _, rfl, rfl⟩
    · obtain ⟨c1, e1⟩ := hd
      by_cases hr : c1 ∈ reservedKeys
      · simp only [normalizeSpot, if_pos hr] at h
        exact ih snap h c t f u tq hmem2 hres hct hpos
      · cases e1 with
        | nondict =>
          simp only [normalizeSpot, if_neg hr] at h
          exact ih snap h c t f u tq hmem2 hres hct hpos
        | dict t1 f1 u1 =>
          simp only [normalizeSpot, if_neg hr] at h
          cases ht1 : coerceNum t1 with
          | error e1 => rw [ht1] at h; simp at h
          | ok tq1 =>
          cases hf1 : coerceNum f1 with
          | error e2 => rw [ht1, hf1] at h; simp at h
          | ok fq1 =>
          cases hu1 : coerceNum u1 with
          | error e3 => rw [ht1, hf1, hu1] at h; simp at h
          | ok uq1 =>
          rw [ht1, hf1, hu1] at h
          cases htail : normalizeSpot rest with
          | error e4 => rw [htail] at h; simp at h
          | ok tail =>
          rw [htail] at h
          dsimp only at h
          by_cases hpos1 : 0 < tq1
          · rw [if_pos hpos1] at h
            simp only [Except.ok.injEq] at h
            subst h
            obtain ⟨a, hamem, hac, hat⟩ :=
              ih tail htail c t f u tq hmem2 hres hct hpos
            exact ⟨a, List.mem_cons_of_mem _ hamem, hac, hat⟩
          · rw [if_neg hpos1] at h
            simp only [Except.ok.injEq] at h
            subst h
            exact ih _ htail c t f u tq hmem2 hres hct hpos

theorem normalizeSpot_settlement (raw : RawBalance) :
    ∀ snap, normalizeSpot raw = .ok snap →
      snap.settlementEquivalent =
        ((snap.balances.filter
            (fun a => decide (a.currency ∈ settlementCurrencies))).map
          AssetBalance.total).sum := by
  induction raw with
  | nil =>
    intro snap h
    simp only [normalizeSpot, Except.ok.injEq] at h
    subst h; simp
  | cons hd rest ih =>
    intro snap h
    obtain ⟨c, e⟩ := hd
    by_cases hr : c ∈ reservedKeys
    · simp only [normalizeSpot, if_pos hr] at h
      exact ih snap h
    · cases e with
      | nondict =>
        simp only [normalizeSpot, if_neg hr] at h
        exact ih snap h
      | dict t f u =>
        simp only [normalizeSpot, if_neg hr] at h
        cases ht : coerceNum t with
        | error e1 => rw [ht] at h; simp at h
        | ok tq =>
        cases hf : coerceNum f with
        | error e2 => rw [ht, hf] at h; simp at h
        | ok fq =>
        cases hu : coerceNum u with
        | error e3 => rw [ht, hf, hu] at h; simp at h
        | ok uq =>
        rw [ht, hf, hu] at h
        cases htail : normalizeSpot rest with
        | error e4 => rw [htail] at h; simp at h
        | ok tail =>
        rw [htail] at h
        dsimp only at h
        by_cases hpos : 0 < tq
        · rw [if_pos hpos] at h
          simp only [Except.ok.injEq] at h
          subst h
          by_cases hc : c ∈ settlementCurrencies
          · simp [List.filter_cons, hc, ih tail htail]
          · simp [List.filter_cons, hc, ih tail htail]
        · rw [if_neg hpos] at h
          simp only [Except.ok.injEq] at h
          subst h
          exact ih _ htail

theorem keepPos_num (p : RawPos) (q : ℚ) (h : p.contracts = some (.num q)) :
    keepPos p = .ok (decide (0 < q)) := by
  by_cases hq : q = 0
  · subst hq; simp [keepPos, h, RawVal.truthy]
  · simp [keepPos, h, RawVal.truthy, hq, pyFloat]

theorem filterPositions_ok (raw : List RawPos) :
    ∀ kept, filterPositions raw = .ok kept →
      kept = raw.filter keepPosB := by
  induction raw with
  | nil =>
    intro kept h
    simp only [filterPositions, Except.ok.injEq] at h
    simp [← h]
  | cons p ps ih =>
    intro kept h
    simp only [filterPositions] at h
    cases hk : keepPos p with
    | error e => rw [hk] at h; simp at h
    | ok k =>
    rw [hk] at h
    cases hrest : filterPositions ps with
    | error e => rw [hrest] at h; simp at h
    | ok rest =>
    rw [hrest] at h
    dsimp only at h
    simp only [Except.ok.injEq] at h
    subst h
    have hkb : keepPosB p = k := by simp [keepPosB, hk]
    cases k with
    | true => simp [List.filter_cons, hkb, ih rest hrest]
    | false => simp [List.filter_cons, hkb, ih rest hrest]

theorem aggPositions_ok (l : List RawPos) :
    ∀ pnl ntl, aggPositions l = .ok (pnl, ntl) →
      pnl = (l.map (fun p => coerced0 p.unrealizedPnl)).sum ∧
      ntl = (l.map (fun p => |coerced0 p.notional|)).sum := by
  induction l with
  | nil =>
    intro pnl ntl h
    simp only [aggPositions, Except.ok.injEq, Prod.mk.injEq] at h
    simp [← h.1, ← h.2]
  | cons p ps ih =>
    intro pnl ntl h
    simp only [aggPositions] at h
    cases hc : coerceNum p.contracts with
    | error e1 => rw [hc] at h; simp at h
    | ok cq =>
    cases he : coerceNum p.entryPrice with
    | error e2 => rw [hc, he] at h; simp at h
    | ok eq1 =>
    cases hm : coerceNum p.markPrice with
    | error e3 => rw [hc, he, hm] at h; simp at h
    | ok mq =>
    rw [hc, he, hm] at h
    dsimp only at h
    cases hp : coerceNum p.unrealizedPnl with
    | error e4 => rw [hp] at h; simp at h
    | ok pq =>
    cases hn : coerceNum p.notional with
    | error e5 => rw [hp, hn] at h; simp at h
    | ok nq =>
    rw [hp, hn] at h
    dsimp only at h
    cases hrest : aggPositions ps with
    | error e6 => rw [hrest] at h; simp at h
    | ok tp =>
    obtain ⟨tpq, tnq⟩ := tp
    rw [hrest] at h
    dsimp only at h
    simp only [Except.ok.injEq, Prod.mk.injEq] at h
    obtain ⟨hpnl, hntl⟩ := h
    obtain ⟨ih1, ih2⟩ := ih tpq tnq hrest
    subst hpnl hntl
    have hp0 : coerced0 p.unrealizedPnl = pq := by simp [coerced0, hp]
    have hn0 : coerced0 p.notional = nq := by simp [coerced0, hn]
    constructor
    · simp only [List.map_cons, List.sum_cons, hp0, ← ih1]
    · simp only [List.map_cons, List.sum_cons, hn0, ← ih2]

theorem gatherTrades_eq (fetch : String → Except Unit (List Fill)) :
    ∀ syms : List String,
      gatherTrades fetch syms = (syms.map (fetchedFills fetch)).flatten := by
  intro syms
  induction syms with
  | nil => simp [gatherTrades]
  | cons s rest ih =>
    cases hs : fetch s with
    | error e => simp [gatherTrades, hs, fetchedFills, ih]
    | ok ts => simp [gatherTrades, hs, fetchedFills, ih]

theorem gatherTrades_drop_failed (fetch : String → Except Unit (List Fill))
    (s : String) (hs : fetch s = .error ()) :
    ∀ syms : List String,
      gatherTrades fetch (syms.filter (fun t => t != s)) =
        gatherTrades fetch syms := by
  intro syms
  induction syms with
  | nil => simp
  | cons t ts ih =>
    by_cases hts : t = s
    · subst hts
      simp [List.filter_cons, gatherTrades, hs, ih]
    · simp only [List.filter_cons, bne_iff_ne, ne_eq, hts,
        not_false_eq_true, if_pos, decide_eq_true_eq]
      cases hft : fetch t with
      | error e => simp [gatherTrades, hft, ih]
      | ok fs => simp [gatherTrades, hft, ih]

theorem probeFunding_eq (fetch : String → Except Unit RawBalance) :
    ∀ l : List String,
      probeFunding fetch l =
        ((l.filterMap (usdtView fetch)).find?
          (fun q => decide (0 < q))).getD 0 := by
  intro l
  induction l with
  | nil => simp [probeFunding]
  | cons t ts ih =>
    cases hft : fetch t with
    | error e => simp [probeFunding, hft, usdtView, List.filterMap_cons, ih]
    | ok raw =>
      cases he : entryTotal raw "USDT" with
      | error e2 =>
        simp [probeFunding, hft, he, usdtView, List.filterMap_cons, ih]
      | ok q =>
        by_cases hq : 0 < q
        · simp [probeFunding, hft, he, usdtView, List.filterMap_cons,
            List.find?_cons, hq]
        · simp [probeFunding, hft, he, usdtView, List.filterMap_cons,
            List.find?_cons, hq, ih]

/-! ## Claim theorems -/

/-- C1 counterexample: with spot 1000, swap 1000.5 and funding 50 the
pools are declared shared and main reports 1000.5 as the estimated total,
not derivativesSubtotal + fundingSubtotal = 1050.5 as the claim states:
the funding subtotal is dropped in the shared branch. -/
theorem claim1_shared_funding_cex :
    (fullRun (.ok [("USDT", .dict (some (.num 1000)) none none)])
        (.ok [("USDT", .dict (some (.num (2001/2))) none none)])
        (.ok [])
        (fun t => if t = "funding"
          then .ok [("USDT", .dict (some (.num 50)) none none)]
          else .error ())) =
      ⟨1000, 2001/2, 50, 0, true, 2001/2⟩ ∧
    (2001 : ℚ)/2 ≠ 2001/2 + 50 := by
  constructor
  · have hs : runSpot (.ok [("USDT", .dict (some (.num 1000)) none none)]) =
        ⟨1000, [⟨"USDT", 1000, 0, 0⟩]⟩ := by
      simp [runSpot, normalizeSpot, coerceNum, reservedKeys,
        settlementCurrencies]
    have hw : runSwap
        (.ok [("USDT", .dict (some (.num (2001/2))) none none)]) =
        ⟨2001/2⟩ := by
      simp [runSwap, swapTotals, entryTotal, entryField, lookupEntry,
        RawEntry.totalField, RawEntry.freeField, RawEntry.usedField,
        coerceNum]
    have hp : runPositions (.ok []) = ⟨[], 0, 0⟩ := by
      simp [runPositions, filterPositions, aggPositions]
    have h50 : (0 : ℚ) < 50 := by norm_num
    have hf : runFunding (fun t => if t = "funding"
        then .ok [("USDT", .dict (some (.num 50)) none none)]
        else .error ()) = 50 := by
      simp [runFunding, fundingTypes, probeFunding, entryTotal, entryField,
        lookupEntry, RawEntry.totalField, coerceNum, h50]
    have hps : poolsShared 1000 (2001/2) = true := by
      simp only [poolsShared, Bool.and_eq_true, decide_eq_true_eq,
        abs_sub_lt_iff]
      norm_num
    simp only [fullRun, hs, hw, hp, hf]
    simp [mkSummary, summaryTotal, hps]
  · norm_num

/-- C1 (amended): main reports unrealized PnL alongside and never adds it
into the total; when the pools look shared the total is the swap subtotal
alone, with both the spot and the funding subtotals excluded; otherwise
the total is spot + swap + funding. -/
theorem claim1_reconciler_totals (s w f p : ℚ) :
    (mkSummary s w f p).unrealizedPnl = p ∧
    (poolsShared s w = true → (mkSummary s w f p).totalEquity = w) ∧
    (poolsShared s w = false →
      (mkSummary s w f p).totalEquity = s + w + f) ∧
    (mkSummary s w f p).totalEquity = (mkSummary s w f 0).totalEquity := by
  refine ⟨rfl, ?_, ?_, rfl⟩
  · intro h; simp [mkSummary, summaryTotal, h]
  · intro h; simp [mkSummary, summaryTotal, h]

/-- Witness for C1: the shared branch at (1000, 1000.5, 50) yields 1000.5
and the additive branch at (300, 700, 50) yields 1050. -/
theorem claim1_reconciler_totals_check :
    (mkSummary 1000 (2001/2 : ℚ) 50 (-3)).totalEquity = 2001/2 ∧
    (mkSummary 300 700 50 2).totalEquity = 300 + 700 + 50 := by
  have h1 : poolsShared 1000 (2001/2 : ℚ) = true := by
    simp only [poolsShared, Bool.and_eq_true, decide_eq_true_eq,
      abs_sub_lt_iff]
    norm_num
  have h2 : poolsShared 300 700 = false := by
    have hlt : ¬(|(300 : ℚ) - 700| < 1) := by
      rw [abs_sub_comm, show (700 : ℚ) - 300 = 400 from by norm_num,
        abs_of_nonneg (show (0 : ℚ) ≤ 400 from by norm_num)]
      norm_num
    simp [poolsShared, hlt]
  exact ⟨(claim1_reconciler_totals 1000 (2001/2) 50 (-3)).2.1 h1,
    (claim1_reconciler_totals 300 700 50 2).2.2.1 h2⟩

/-- C2 counterexample: with spot subtotal 0.5 and swap subtotal 0 the
check declares the pools shared even though one subtotal is zero, because
the code only tests the spot side for positivity. -/
theorem claim2_zero_swap_cex : poolsShared (1/2 : ℚ) 0 = true := by
  simp only [poolsShared, Bool.and_eq_true, decide_eq_true_eq,
    abs_sub_lt_iff]
  norm_num

/-- C2 (amended): poolsShared is true exactly when the absolute difference
is below 1 and the spot subtotal is strictly positive; it is false when
the spot subtotal is zero or the difference is at least 1, and true
whenever the spot subtotal is positive and the difference is below 1,
regardless of whether the swap subtotal is zero. -/
theorem claim2_detector_rule (s w : ℚ) :
    (poolsShared s w = true ↔ (|s - w| < 1 ∧ 0 < s)) ∧
    (s = 0 → poolsShared s w = false) ∧
    (1 ≤ |s - w| → poolsShared s w = false) ∧
    (0 < s → |s - w| < 1 → poolsShared s w = true) := by
  have hiff : poolsShared s w = true ↔ (|s - w| < 1 ∧ 0 < s) := by
    simp [poolsShared]
  refine ⟨hiff, ?_, ?_, fun hs hd => hiff.mpr ⟨hd, hs⟩⟩
  · intro hs0; subst hs0
    simp [poolsShared]
  · intro hge
    have hlt : ¬(|s - w| < 1) := not_lt.mpr hge
    simp [poolsShared, hlt]

/-- Witness for C2: the rule evaluated at (0, 500), (1000, 5000) and
(1000, 1000.5). -/
theorem claim2_detector_rule_check :
    poolsShared 0 500 = false ∧ poolsShared 1000 5000 = false ∧
    poolsShared 1000 (2001/2 : ℚ) = true := by
  have h1 : (1 : ℚ) ≤ |(1000 : ℚ) - 5000| := by
    rw [abs_sub_comm, show (5000 : ℚ) - 1000 = 4000 from by norm_num,
      abs_of_nonneg (show (0 : ℚ) ≤ 4000 from by norm_num)]
    norm_num
  refine ⟨(claim2_detector_rule 0 500).2.1 rfl,
    (claim2_detector_rule 1000 5000).2.2.1 h1,
    (claim2_detector_rule 1000 (2001/2)).2.2.2 (by norm_num) ?_⟩
  rw [abs_sub_lt_iff]
  norm_num

/-- C8: the unified-margin check declares (1000, 1000.5) shared,
(1000, 5000) not shared and (0, 500) not shared. -/
theorem claim8_detector_examples :
    poolsShared 1000 (2001/2 : ℚ) = true ∧
    poolsShared 1000 5000 = false ∧
    poolsShared 0 500 = false := by
  refine ⟨?_, ?_, ?_⟩
  · simp only [poolsShared, Bool.and_eq_true, decide_eq_true_eq,
      abs_sub_lt_iff]
    norm_num
  · have hlt : ¬(|(1000 : ℚ) - 5000| < 1) := by
      rw [abs_sub_comm, show (5000 : ℚ) - 1000 = 4000 from by norm_num,
        abs_of_nonneg (show (0 : ℚ) ≤ 4000 from by norm_num)]
      norm_num
    simp [poolsShared, hlt]
  · simp [poolsShared]

/-- C3 counterexample: an empty string is a present value that the float
conversion itself rejects as non-numeric, yet the normalizer coerces it
silently to 0 instead of failing, because the or-0 idiom replaces every
falsy value before the conversion runs. -/
theorem claim3_empty_string_cex :
    pyFloat .emptyStr = .error () ∧
    normalizeSpot [("XYZ", .dict (some .emptyStr) none none)] =
      .ok ⟨[], 0⟩ := by
  refine ⟨rfl, ?_⟩
  simp [normalizeSpot, coerceNum, reservedKeys]

/-- C3 (amended): a present truthy non-numeric value, that is a non-empty
non-numeric string, in any total, free or used field of a non-reserved
currency makes the whole normalization fail, and the caller absorbs the
failure into the zero result for that snapshot only; missing and null
fields are coerced to 0 without error. -/
theorem claim3_malformed_balance (raw : RawBalance) (c : String)
    (t f u : Option RawVal)
    (hmem : (c, RawEntry.dict t f u) ∈ raw) (hres : c ∉ reservedKeys)
    (hbad : t = some (.str none) ∨ f = some (.str none) ∨
      u = some (.str none)) :
    normalizeSpot raw = .error () ∧ runSpot (.ok raw) = ⟨0, []⟩ ∧
    coerceNum none = .ok 0 ∧ coerceNum (some .null) = .ok 0 := by
  have herr := normalizeSpot_error_of_bad raw c t f u hmem hres hbad
  exact ⟨herr, by simp [runSpot, herr], rfl, rfl⟩

/-- Witness for C3: a non-numeric string in the total field of currency
XYZ makes the normalizer fail and the spot component report zero. -/
theorem claim3_malformed_balance_check :
    normalizeSpot [("XYZ", .dict (some (.str none)) none none)] =
      .error () ∧
    runSpot (.ok [("XYZ", .dict (some (.str none)) none none)]) =
      ⟨0, []⟩ ∧
    coerceNum none = .ok 0 ∧ coerceNum (some .null) = .ok 0 :=
  claim3_malformed_balance [("XYZ", .dict (some (.str none)) none none)]
    "XYZ" (some (.str none)) none none (by simp) (by simp [reservedKeys])
    (Or.inl rfl)

/-- C4 counterexample: the normalizer returns balances in raw insertion
order, so a smaller total can precede a larger one, and even the sorted
display listing keeps equal totals in insertion order rather than
breaking ties by currency ascending. -/
theorem claim4_order_cex :
    normalizeSpot [("AAA", .dict (some (.num 1)) none none),
        ("BBB", .dict (some (.num 2)) none none)] =
      .ok ⟨[⟨"AAA", 1, 0, 0⟩, ⟨"BBB", 2, 0, 0⟩], 0⟩ ∧
    isSpecOrdered [⟨"AAA", (1 : ℚ), 0, 0⟩, ⟨"BBB", 2, 0, 0⟩] = false ∧
    sortByTotalDesc [⟨"BBB", (1 : ℚ), 0, 0⟩, ⟨"AAA", 1, 0, 0⟩] =
      [⟨"BBB", 1, 0, 0⟩, ⟨"AAA", 1, 0, 0⟩] ∧
    isSpecOrdered [⟨"BBB", (1 : ℚ), 0, 0⟩, ⟨"AAA", 1, 0, 0⟩] = false := by
  have h01 : (0 : ℚ) < 1 := by norm_num
  have h02 : (0 : ℚ) < 2 := by norm_num
  have h12 : ¬((2 : ℚ) < 1) := by norm_num
  have hle : (1 : ℚ) ≤ 1 := le_refl 1
  have hba : strLE "BBB" "AAA" = false := by decide
  refine ⟨?_, ?_, ?_, ?_⟩
  · simp [normalizeSpot, coerceNum, reservedKeys, settlementCurrencies,
      h01, h02]
  · simp [isSpecOrdered, h12]
  · simp [sortByTotalDesc, insertByTotal, hle]
  · simp [isSpecOrdered, hba]

/-- C4 (amended): the display listing built from any successful
normalization is sorted descending by total and is a permutation of the
returned balances; the returned balances themselves keep raw insertion
order and ties in the display are not reordered by currency. -/
theorem claim4_display_order (raw : RawBalance) (snap : SpotSnapshot)
    (h : normalizeSpot raw = .ok snap) :
    runSpot (.ok raw) = ⟨snap.settlementEquivalent, snap.balances⟩ ∧
    isSortedDescByTotal (sortByTotalDesc snap.balances) = true ∧
    (sortByTotalDesc snap.balances).Perm snap.balances :=
  ⟨by simp [runSpot, h], sortByTotalDesc_sorted snap.balances,
    sortByTotalDesc_perm snap.balances⟩

/-- Witness for C4: the amended ordering property at a concrete
normalization. -/
theorem claim4_display_order_check :
    runSpot (.ok [("BBB", .dict (some (.num 2)) none none),
        ("AAA", .dict (some (.num 1)) none none)]) =
      ⟨0, [⟨"BBB", 2, 0, 0⟩, ⟨"AAA", 1, 0, 0⟩]⟩ ∧
    isSortedDescByTotal (sortByTotalDesc
      [⟨"BBB", (2 : ℚ), 0, 0⟩, ⟨"AAA", 1, 0, 0⟩]) = true ∧
    (sortByTotalDesc [⟨"BBB", (2 : ℚ), 0, 0⟩, ⟨"AAA", 1, 0, 0⟩]).Perm
      [⟨"BBB", 2, 0, 0⟩, ⟨"AAA", 1, 0, 0⟩] := by
  have h01 : (0 : ℚ) < 1 := by norm_num
  have h02 : (0 : ℚ) < 2 := by norm_num
  have hn : normalizeSpot [("BBB", .dict (some (.num 2)) none none),
      ("AAA", .dict (some (.num 1)) none none)] =
      .ok ⟨[⟨"BBB", 2, 0, 0⟩, ⟨"AAA", 1, 0, 0⟩], 0⟩ := by
    simp [normalizeSpot, coerceNum, reservedKeys, settlementCurrencies,
      h01, h02]
  exact claim4_display_order
    [("BBB", .dict (some (.num 2)) none none),
     ("AAA", .dict (some (.num 1)) none none)]
    ⟨[⟨"BBB", 2, 0, 0⟩, ⟨"AAA", 1, 0, 0⟩], 0⟩ hn

/-- C5: in every successful normalization, every listed asset has a
strictly positive total, every processed non-reserved dict entry whose
coerced total is positive appears under its currency with that total, and
the settlement equivalent is exactly the sum of the totals of the listed
assets whose currency is a settlement currency. -/
theorem claim5_inclusion_settlement (raw : RawBalance)
    (snap : SpotSnapshot) (h : normalizeSpot raw = .ok snap) :
    (∀ a ∈ snap.balances, 0 < a.total) ∧
    (∀ c t f u tq, (c, RawEntry.dict t f u) ∈ raw → c ∉ reservedKeys →
      coerceNum t = .ok tq → 0 < tq →
      ∃ a ∈ snap.balances, a.currency = c ∧ a.total = tq) ∧
    snap.settlementEquivalent =
      ((snap.balances.filter
          (fun a => decide (a.currency ∈ settlementCurrencies))).map
        AssetBalance.total).sum :=
  ⟨normalizeSpot_pos raw snap h, normalizeSpot_mem raw snap h,
   normalizeSpot_settlement raw snap h⟩

/-- Witness for C5: a concrete normalization with a settlement asset, a
skipped metadata key, a zero-total asset and a non-settlement asset. -/
theorem claim5_inclusion_settlement_check :
    (∃ a ∈ ([⟨"USDT", (2 : ℚ), 0, 0⟩, ⟨"BTC", 1, 0, 0⟩] :
        List AssetBalance), a.currency = "BTC" ∧ a.total = 1) ∧
    (2 : ℚ) = ((([⟨"USDT", (2 : ℚ), 0, 0⟩, ⟨"BTC", 1, 0, 0⟩] :
        List AssetBalance).filter
          (fun a => decide (a.currency ∈ settlementCurrencies))).map
        AssetBalance.total).sum := by
  have h01 : (0 : ℚ) < 1 := by norm_num
  have h02 : (0 : ℚ) < 2 := by norm_num
  have h00 : ¬((0 : ℚ) < 0) := lt_irrefl 0
  have hn : normalizeSpot
      [("USDT", .dict (some (.num 2)) none none), ("info", .nondict),
       ("FOO", .dict (some (.num 0)) none none),
       ("BTC", .dict (some (.num 1)) none none)] =
      .ok ⟨[⟨"USDT", 2, 0, 0⟩, ⟨"BTC", 1, 0, 0⟩], 2⟩ := by
    simp [normalizeSpot, coerceNum, reservedKeys, settlementCurrencies,
      h01, h02, h00]
  have main := claim5_inclusion_settlement
    [("USDT", .dict (some (.num 2)) none none), ("info", .nondict),
     ("FOO", .dict (some (.num 0)) none none),
     ("BTC", .dict (some (.num 1)) none none)]
    ⟨[⟨"USDT", 2, 0, 0⟩, ⟨"BTC", 1, 0, 0⟩], 2⟩ hn
  exact ⟨main.2.1 "BTC" (some (.num 1)) none none 1 (by simp)
      (by simp [reservedKeys]) rfl h01,
    main.2.2⟩

/-- C6: a successful position filtering keeps exactly the records whose
retention test passes, a record with numeric size is kept precisely when
that size is positive, a record without a size field is never kept, and a
successful aggregation over the kept records returns the signed sum of
the coerced unrealized PnL values and the sum of the absolute coerced
notional values. -/
theorem claim6_position_aggregator (raw kept : List RawPos)
    (h : filterPositions raw = .ok kept) :
    kept = raw.filter keepPosB ∧
    (∀ p ∈ raw, ∀ q : ℚ, p.contracts = some (.num q) →
      (p ∈ kept ↔ 0 < q)) ∧
    (∀ p ∈ raw, p.contracts = none → p ∉ kept) ∧
    (∀ pnl ntl, aggPositions kept = .ok (pnl, ntl) →
      pnl = (kept.map (fun p => coerced0 p.unrealizedPnl)).sum ∧
      ntl = (kept.map (fun p => |coerced0 p.notional|)).sum) := by
  have hk := filterPositions_ok raw kept h
  refine ⟨hk, ?_, ?_, fun pnl ntl ha => aggPositions_ok kept pnl ntl ha⟩
  · intro p hp q hq
    subst hk
    rw [List.mem_filter]
    have hkb : keepPosB p = decide (0 < q) := by
      simp [keepPosB, keepPos_num p q hq]
    constructor
    · rintro ⟨-, hb⟩
      rw [hkb] at hb
      exact of_decide_eq_true hb
    · intro h0
      exact ⟨hp, by rw [hkb]; exact decide_eq_true h0⟩
  · intro p hp hq
    subst hk
    rw [List.mem_filter]
    rintro ⟨-, hb⟩
    simp [keepPosB, keepPos, hq] at hb

/-- Witness for C6: three records, one open with size 2, negative PnL and
negative notional, one with size 0 and one without a size field; only the
first is kept and the sums are signed PnL and absolute notional. -/
theorem claim6_position_aggregator_check :
    ((⟨some (.num 2), none, none, some (.num (-3)), some (.num (-5))⟩ :
        RawPos) ∈
      ([⟨some (.num 2), none, none, some (.num (-3)), some (.num (-5))⟩] :
        List RawPos) ↔ (0 : ℚ) < 2) ∧
    (⟨none, none, none, some (.num 9), none⟩ : RawPos) ∉
      ([⟨some (.num 2), none, none, some (.num (-3)), some (.num (-5))⟩] :
        List RawPos) ∧
    (-3 : ℚ) =
      (([⟨some (.num 2), none, none, some (.num (-3)), some (.num (-5))⟩] :
          List RawPos).map (fun p => coerced0 p.unrealizedPnl)).sum ∧
    (5 : ℚ) =
      (([⟨some (.num 2), none, none, some (.num (-3)), some (.num (-5))⟩] :
          List RawPos).map (fun p => |coerced0 p.notional|)).sum := by
  have h02 : (0 : ℚ) < 2 := by norm_num
  have h2ne : (2 : ℚ) ≠ 0 := by norm_num
  have h0ne : ¬((0 : ℚ) ≠ 0) := by norm_num
  have habs : |(-5 : ℚ)| = 5 := by
    rw [abs_neg, abs_of_nonneg (show (0 : ℚ) ≤ 5 from by norm_num)]
  have hfp : filterPositions
      [⟨some (.num 2), none, none, some (.num (-3)), some (.num (-5))⟩,
       ⟨some (.num 0), none, none, some (.num 9), none⟩,
       ⟨none, none, none, some (.num 9), none⟩] =
      .ok [⟨some (.num 2), none, none, some (.num (-3)),
        some (.num (-5))⟩] := by
    simp [filterPositions, keepPos, RawVal.truthy, pyFloat, h02, h2ne, h0ne]
  have hagg : aggPositions
      [⟨some (.num 2), none, none, some (.num (-3)), some (.num (-5))⟩] =
      .ok (-3, 5) := by
    simp [aggPositions, coerceNum, habs]
  have main := claim6_position_aggregator
    [⟨some (.num 2), none, none, some (.num (-3)), some (.num (-5))⟩,
     ⟨some (.num 0), none, none, some (.num 9), none⟩,
     ⟨none, none, none, some (.num 9), none⟩]
    [⟨some (.num 2), none, none, some (.num (-3)), some (.num (-5))⟩] hfp
  exact ⟨main.2.1 _ (by simp) 2 rfl, main.2.2.1 _ (by simp) rfl,
    (main.2.2.2 (-3) 5 hagg).1, (main.2.2.2 (-3) 5 hagg).2⟩

/-- C7: when fetching fills for one symbol fails, removing that symbol
from the requested list changes nothing, the fill count is the number of
gathered fills, and the gathered fills are exactly the concatenation of
the per-symbol fetch results with failing symbols contributing nothing;
the gathering itself is a total function and never aborts. -/
theorem claim7_trades_partial_failure
    (fetch : String → Except Unit (List Fill)) (syms : List String)
    (s : String) (res : TradesResult)
    (hfail : fetch s = .error ())
    (hrun : runTrades fetch syms = .ok res) :
    runTrades fetch (syms.filter (fun t => t != s)) = .ok res ∧
    res.fillCount = (gatherTrades fetch syms).length ∧
    gatherTrades fetch syms = (syms.map (fetchedFills fetch)).flatten := by
  have hdrop := gatherTrades_drop_failed fetch s hfail syms
  have hrt : runTrades fetch (syms.filter (fun t => t != s)) =
      runTrades fetch syms := by
    simp only [runTrades, hdrop]
  refine ⟨hrt.trans hrun, ?_, gatherTrades_eq fetch syms⟩
  simp only [runTrades] at hrun
  cases hv : sumCosts (gatherTrades fetch syms) with
  | error e1 => rw [hv] at hrun; simp at hrun
  | ok v =>
  cases hf : sumFees (gatherTrades fetch syms) with
  | error e2 => rw [hv, hf] at hrun; simp at hrun
  | ok f =>
  rw [hv, hf] at hrun
  dsimp only at hrun
  simp only [Except.ok.injEq] at hrun
  rw [← hrun]

/-- Witness for C7: three symbols of which the second fails; the other
two contribute two fills, volume 15 and fees 3, and dropping the failing
symbol leaves the result unchanged. -/
theorem claim7_trades_partial_failure_check :
    runTrades
      (fun t => if t = "A"
        then .ok [⟨some (.num 10), some (.num 1)⟩]
        else if t = "B" then .error ()
        else .ok [⟨some (.num 5), some (.num 2)⟩])
      (["A", "B", "C"].filter (fun t => t != "B")) = .ok ⟨2, 15, 3⟩ ∧
    (⟨2, 15, 3⟩ : TradesResult).fillCount =
      (gatherTrades
        (fun t => if t = "A"
          then .ok [⟨some (.num 10), some (.num 1)⟩]
          else if t = "B" then .error ()
          else .ok [⟨some (.num 5), some (.num 2)⟩])
        ["A", "B", "C"]).length ∧
    gatherTrades
        (fun t => if t = "A"
          then .ok [⟨some (.num 10), some (.num 1)⟩]
          else if t = "B" then .error ()
          else .ok [⟨some (.num 5), some (.num 2)⟩])
        ["A", "B", "C"] =
      (["A", "B", "C"].map (fetchedFills
        (fun t => if t = "A"
          then .ok [⟨some (.num 10), some (.num 1)⟩]
          else if t = "B" then .error ()
          else .ok [⟨some (.num 5), some (.num 2)⟩]))).flatten := by
  have h15 : (10 : ℚ) + 5 = 15 := by norm_num
  have h3 : (1 : ℚ) + 2 = 3 := by norm_num
  have hrun : runTrades
      (fun t => if t = "A"
        then .ok [⟨some (.num 10), some (.num 1)⟩]
        else if t = "B" then .error ()
        else .ok [⟨some (.num 5), some (.num 2)⟩])
      ["A", "B", "C"] = .ok ⟨2, 15, 3⟩ := by
    simp [runTrades, gatherTrades, sumCosts, sumFees, coerceNum, h15, h3]
  exact claim7_trades_partial_failure _ ["A", "B", "C"] "B" ⟨2, 15, 3⟩
    (by simp) hrun

/-- C9: the funding probe returns the USDT total of the first account
type among funding, earn, savings whose fetch succeeds and whose coerced
USDT total is strictly positive, and 0 when no type qualifies; it is a
total function of the fetch outcomes and consults nothing but the USDT
entry of each response. -/
theorem claim9_funding_probe (fetch : String → Except Unit RawBalance) :
    runFunding fetch =
      ((fundingTypes.filterMap (usdtView fetch)).find?
        (fun q => decide (0 < q))).getD 0 :=
  probeFunding_eq fetch fundingTypes

/-- C10: each gathering component absorbs its own failure into the zero
result, whether the fetch itself fails or the fetched payload is
malformed, and the overall run still produces a summary in which the
failed components contribute zero. -/
theorem claim10_failures_absorbed :
    runSpot (.error ()) = ⟨0, []⟩ ∧
    (∀ raw, normalizeSpot raw = .error () → runSpot (.ok raw) = ⟨0, []⟩) ∧
    runSwap (.error ()) = ⟨0⟩ ∧
    (∀ raw, swapTotals raw = .error () → runSwap (.ok raw) = ⟨0⟩) ∧
    runPositions (.error ()) = ⟨[], 0, 0⟩ ∧
    (∀ praw, filterPositions praw = .error () →
      runPositions (.ok praw) = ⟨[], 0, 0⟩) ∧
    (∀ swapFetch fundFetch,
      fullRun (.error ()) swapFetch (.error ()) fundFetch =
        mkSummary 0 (runSwap swapFetch).total (runFunding fundFetch) 0) := by
  refine ⟨rfl, ?_, rfl, ?_, rfl, ?_, ?_⟩
  · intro raw h; simp [runSpot, h]
  · intro raw h; simp [runSwap, h]
  · intro praw h; simp [runPositions, h]
  · intro swapFetch fundFetch; rfl

/-- Witness for C10: concrete malformed payloads for the spot, swap and
position components are each absorbed into the zero result. -/
theorem claim10_failures_absorbed_check :
    runSpot (.ok [("XYZ", .dict (some (.str none)) none none)]) =
      ⟨0, []⟩ ∧
    runSwap (.ok [("USDT", .dict (some (.str none)) none none)]) = ⟨0⟩ ∧
    runPositions (.ok [⟨some (.str none), none, none, none, none⟩]) =
      ⟨[], 0, 0⟩ := by
  have h1 : normalizeSpot [("XYZ", .dict (some (.str none)) none none)] =
      .error () := by
    simp [normalizeSpot, coerceNum, reservedKeys]
  have h2 : swapTotals [("USDT", .dict (some (.str none)) none none)] =
      .error () := by
    simp [swapTotals, entryTotal, entryField, lookupEntry,
      RawEntry.totalField, RawEntry.freeField, RawEntry.usedField,
      coerceNum]
  have h3 : filterPositions [⟨some (.str none), none, none, none, none⟩] =
      .error () := by
    simp [filterPositions, keepPos, RawVal.truthy, pyFloat]
  exact ⟨claim10_failures_absorbed.2.1 _ h1,
    claim10_failures_absorbed.2.2.2.1 _ h2,
    claim10_failures_absorbed.2.2.2.2.2.1 _ h3⟩

end MexcBalance
